import Mathlib

/-!
Verification of the product-service coordination layer: the sliding-window
rate limiter, the stampede-safe read-through cache, and the Kafka
reconciliation consumer. Definitions are shallow embeddings of the
TypeScript sources (src/products/src/redis/redis.service.ts, the
RateLimitGuard, and src/products/src/kafka/product.consumer.ts).
Time is epoch milliseconds as Int; machine numbers are Int (the code only
performs integer arithmetic on them in the verified paths).
-/

set_option linter.unusedVariables false

namespace ProductService

/-! ### Association-list model of the Redis keyspace -/

def lookupKV {β : Type} : List (String × β) → String → Option β
  | [], _ => none
  | (k', v) :: rest, k => if k = k' then some v else lookupKV rest k

def setKV {β : Type} : List (String × β) → String → β → List (String × β)
  | [], k, v => [(k, v)]
  | (k', v') :: rest, k, v =>
      if k = k' then (k, v) :: rest else (k', v') :: setKV rest k v

def delKV {β : Type} : List (String × β) → String → List (String × β)
  | [], _ => []
  | (k', v') :: rest, k =>
      if k = k' then delKV rest k else (k', v') :: delKV rest k

theorem lookupKV_setKV_self {β : Type} (st : List (String × β)) (k : String) (v : β) :
    lookupKV (setKV st k v) k = some v := by
  induction st with
  | nil => simp [setKV, lookupKV]
  | cons hd tl ih =>
      by_cases h : k = hd.1
      · simp [setKV, lookupKV, h]
      · simp [setKV, lookupKV, h, ih]

theorem lookupKV_setKV_ne {β : Type} (st : List (String × β)) (k k' : String) (v : β)
    (h : k' ≠ k) : lookupKV (setKV st k v) k' = lookupKV st k' := by
  induction st with
  | nil => simp [setKV, lookupKV, h]
  | cons hd tl ih =>
      by_cases hk : k = hd.1
      · subst hk
        simp [setKV, lookupKV, h]
      · by_cases hk' : k' = hd.1
        · simp [setKV, lookupKV, hk, hk']
        · simp [setKV, lookupKV, hk, hk', ih]

theorem lookupKV_delKV_self {β : Type} (st : List (String × β)) (k : String) :
    lookupKV (delKV st k) k = none := by
  induction st with
  | nil => simp [delKV, lookupKV]
  | cons hd tl ih =>
      by_cases h : k = hd.1
      · simp only [delKV]
        rw [if_pos h]
        exact ih
      · simp only [delKV]
        rw [if_neg h]
        simp [lookupKV, h, ih]

theorem lookupKV_delKV_ne {β : Type} (st : List (String × β)) (k k' : String)
    (h : k' ≠ k) : lookupKV (delKV st k) k' = lookupKV st k' := by
  induction st with
  | nil => simp [delKV, lookupKV]
  | cons hd tl ih =>
      by_cases hk : k = hd.1
      · subst hk
        simp [delKV, lookupKV, h, ih]
      · by_cases hk' : k' = hd.1
        · simp [delKV, lookupKV, hk, hk']
        · simp [delKV, lookupKV, hk, hk', ih]

/-! ### Sliding-window rate limiter (redis.service.ts, checkRateLimit) -/

/-- One Redis sorted set: a list of (score, member) pairs. Scores are the
millisecond timestamps written by zadd; members are the random-suffixed
marker strings. -/
abbrev ZSet := List (Int × String)

/-- Model of ZREMRANGEBYSCORE key lo hi: drop every member whose score lies
in the closed interval [lo, hi]. -/
def zremrangebyscore (s : ZSet) (lo hi : Int) : ZSet :=
  s.filter (fun m => decide (¬ (lo ≤ m.1 ∧ m.1 ≤ hi)))

/-- Model of ZCARD: the number of members. -/
def zcard (s : ZSet) : Nat := s.length

/-- Model of ZADD key score member: update the score when the member already
exists, append the member otherwise. -/
def zadd (s : ZSet) (score : Int) (member : String) : ZSet :=
  if s.any (fun m => m.2 == member) then
    s.map (fun m => if m.2 == member then (score, member) else m)
  else s ++ [(score, member)]

/-- Integer ceiling of x / 1000, the Math.ceil(x / 1000) of the source. -/
def ceilDiv1000 (x : Int) : Int := (x + 999).ediv 1000

/-- Result of one sliding-window command group on one key, mirroring
addSlidingWindowCommands: ZREMRANGEBYSCORE(0, windowStart), ZCARD, ZADD,
EXPIRE. The count is taken after the prune and before the insert. -/
structure SlidingWindowEffect where
  countBefore : Nat
  zsetAfter : ZSet
  keyTtlSeconds : Int
  deriving DecidableEq

def addSlidingWindowCommands (zset : ZSet) (now windowStart windowMs : Int)
    (member : String) : SlidingWindowEffect :=
  let pruned := zremrangebyscore zset 0 windowStart
  { countBefore := zcard pruned
    zsetAfter := zadd pruned now member
    keyTtlSeconds := ceilDiv1000 windowMs + 1 }

structure RateLimitResult where
  allowed : Bool
  remaining : Int
  reset : Int
  total : Int
  windowMs : Int
  deriving DecidableEq

/-- Outcome of the pipelined round trip as observed by checkRateLimit:
the exec call throws, some command reports a per-command error (the
results.some check), or everything succeeds. -/
inductive RLExec where
  | execThrow
  | cmdError
  | ok
  deriving DecidableEq

/-- The fail-open result built in both fallback branches of checkRateLimit. -/
def fallbackResult (now windowMs maxRequests : Int) : RateLimitResult :=
  { allowed := true
    remaining := maxRequests
    reset := now + windowMs
    total := maxRequests
    windowMs := windowMs }

/-- Model of RedisService.checkRateLimit for one identifier. The zset is the
sorted set stored at the key built from the identifier; ready models the
ensureRedisClient check; member is the random-suffixed marker string. The
model is a total function: the TypeScript method never throws, every error
path returns the fallback result. On a failed pipeline the server-side
effects are unspecified; the model leaves the zset unchanged, which no
theorem below depends on. -/
def checkRateLimit (ready : Bool) (outcome : RLExec) (zset : ZSet)
    (now windowMs maxRequests : Int) (member : String) : RateLimitResult × ZSet :=
  if !ready then (fallbackResult now windowMs maxRequests, zset)
  else
    match outcome with
    | RLExec.ok =>
        let eff := addSlidingWindowCommands zset now (now - windowMs) windowMs member
        let requestsInWindow : Int := (eff.countBefore : Int) + 1
        ({ allowed := decide (requestsInWindow ≤ maxRequests)
           remaining := max 0 (maxRequests - requestsInWindow)
           reset := now + windowMs
           total := maxRequests
           windowMs := windowMs },
         eff.zsetAfter)
    | _ => (fallbackResult now windowMs maxRequests, zset)

/-- Model of the retryAfter computation of RateLimitGuard:
Math.ceil((result.reset.getTime() - Date.now()) / 1000). -/
def retryAfterSeconds (r : RateLimitResult) (nowAtGuard : Int) : Int :=
  ceilDiv1000 (r.reset - nowAtGuard)

/-- Sequential trace of checkRateLimit calls on one key: each call supplies
its timestamp and its fresh marker and threads the sorted set. -/
def runRateLimitCalls (zset : ZSet) (calls : List (Int × String))
    (windowMs maxRequests : Int) : List RateLimitResult × ZSet :=
  match calls with
  | [] => ([], zset)
  | (t, m) :: rest =>
      let step := checkRateLimit true RLExec.ok zset t windowMs maxRequests m
      let tail := runRateLimitCalls step.2 rest windowMs maxRequests
      (step.1 :: tail.1, tail.2)

theorem zremrangebyscore_nonneg (zset : ZSet) (ws : Int)
    (hpos : ∀ m ∈ zset, 0 ≤ m.1) :
    zremrangebyscore zset 0 ws = zset.filter (fun m => decide (ws < m.1)) := by
  apply List.filter_congr
  intro m hm
  have h0 := hpos m hm
  have : (¬ (0 ≤ m.1 ∧ m.1 ≤ ws)) ↔ ws < m.1 := by
    constructor
    · intro h
      by_contra hlt
      exact h ⟨h0, by omega⟩
    · intro h hc
      omega
  simp [this]

theorem mem_map_snd_zadd (s : ZSet) (score : Int) (member : String) :
    member ∈ (zadd s score member).map (fun m => m.2) := by
  unfold zadd
  by_cases h : s.any (fun m => m.2 == member)
  · simp only [h, if_true, List.map_map]
    rcases List.any_eq_true.mp h with ⟨m, hm, hbeq⟩
    refine List.mem_map.mpr ⟨m, hm, ?_⟩
    simp [Function.comp, hbeq]
  · simp [h]

/-- Claim C1: when the store client is ready and the pipeline succeeds,
checkRateLimit returns allowed = (countBeforeInsert + 1 <= maxRequests) and
remaining = max 0 (maxRequests - (countBeforeInsert + 1)), where
countBeforeInsert counts the markers that survive pruning of all markers
with timestamp at most now - windowMs, and the new marker is inserted into
the sorted set unconditionally, also when allowed is false. The hypothesis
that stored scores are nonnegative reflects that they are Date.now values. -/
theorem C1_checkRateLimit_formula (zset : ZSet) (now windowMs maxRequests : Int)
    (member : String) (hpos : ∀ m ∈ zset, 0 ≤ m.1) :
    (checkRateLimit true RLExec.ok zset now windowMs maxRequests member).1.allowed
      = decide ((((zset.filter (fun m => decide (now - windowMs < m.1))).length : Int) + 1)
          ≤ maxRequests)
    ∧ (checkRateLimit true RLExec.ok zset now windowMs maxRequests member).1.remaining
      = max 0 (maxRequests
          - (((zset.filter (fun m => decide (now - windowMs < m.1))).length : Int) + 1))
    ∧ member ∈ ((checkRateLimit true RLExec.ok zset now windowMs maxRequests member).2.map
        (fun m => m.2)) := by
  have hz := zremrangebyscore_nonneg zset (now - windowMs) hpos
  refine ⟨?_, ?_, ?_⟩
  · simp [checkRateLimit, addSlidingWindowCommands, zcard, hz]
  · simp [checkRateLimit, addSlidingWindowCommands, zcard, hz]
  · simp only [checkRateLimit, addSlidingWindowCommands, Bool.not_true, if_neg]
    simp only [zcard]
    exact mem_map_snd_zadd _ now member

theorem C1_checkRateLimit_formula_witness :
    (∀ m ∈ ([(5, "a"), (40, "b")] : ZSet), 0 ≤ m.1)
    ∧ (checkRateLimit true RLExec.ok [(5, "a"), (40, "b")] 50 30 1 "m").1.allowed
      = decide (((([((5 : Int), "a"), (40, "b")].filter
            (fun m => decide ((50 : Int) - 30 < m.1))).length : Int) + 1) ≤ 1)
    ∧ (checkRateLimit true RLExec.ok [(5, "a"), (40, "b")] 50 30 1 "m").1.remaining
      = max 0 (1 - ((([((5 : Int), "a"), (40, "b")].filter
            (fun m => decide ((50 : Int) - 30 < m.1))).length : Int) + 1))
    ∧ "m" ∈ ((checkRateLimit true RLExec.ok [(5, "a"), (40, "b")] 50 30 1 "m").2.map
        (fun m => m.2)) :=
  ⟨by decide, C1_checkRateLimit_formula [(5, "a"), (40, "b")] 50 30 1 "m" (by decide)⟩

/-- Claim C2: when the store client is not ready, or the pipelined round
trip throws, or some pipelined command reports a per-command error,
checkRateLimit returns the fail-open result: allowed = true with
remaining = maxRequests and total = maxRequests, for every identifier and
every prior state of the sorted set. The model is a total function, which
mirrors that the method never raises an exception to the caller. -/
theorem C2_checkRateLimit_fail_open (ready : Bool) (outcome : RLExec) (zset : ZSet)
    (now windowMs maxRequests : Int) (member : String)
    (h : ready = false ∨ outcome ≠ RLExec.ok) :
    (checkRateLimit ready outcome zset now windowMs maxRequests member).1
      = fallbackResult now windowMs maxRequests := by
  rcases h with h | h
  · subst h
    simp [checkRateLimit]
  · cases ready
    · simp [checkRateLimit]
    · cases outcome
      · simp [checkRateLimit]
      · simp [checkRateLimit]
      · exact absurd rfl h

theorem C2_checkRateLimit_fail_open_witness :
    (false = false ∨ RLExec.execThrow ≠ RLExec.ok)
    ∧ (checkRateLimit false RLExec.execThrow [(0, "x")] 100 60000 5 "m").1
      = fallbackResult 100 60000 5 :=
  ⟨Or.inl rfl,
   C2_checkRateLimit_fail_open false RLExec.execThrow [(0, "x")] 100 60000 5 "m" (Or.inl rfl)⟩

/-! ### Bulk rate limiting (redis.service.ts, bulkRateLimit) -/

/-- Outcome of the single bulk pipeline exec call. Unlike the single-key
path, bulkRateLimit performs no per-command error check. -/
inductive BulkExec where
  | execThrow
  | ok
  deriving DecidableEq

/-- The per-key command groups of the one bulk pipeline, applied in
submission order over the keyspace, returning the ZCARD reply of each
group. marks gives the random-suffixed marker of the group at each index. -/
def bulkPipeline (store : List (String × ZSet)) (keys : List String) (idx : Nat)
    (now windowStart windowMs : Int) (marks : Nat → String) :
    List (String × ZSet) × List Nat :=
  match keys with
  | [] => (store, [])
  | k :: rest =>
      let z := (lookupKV store k).getD []
      let eff := addSlidingWindowCommands z now windowStart windowMs (marks idx)
      let tail := bulkPipeline (setKV store k eff.zsetAfter) rest (idx + 1)
        now windowStart windowMs marks
      (tail.1, eff.countBefore :: tail.2)

/-- Model of RedisService.bulkRateLimit. The result map is the Map built by
resultMap.set in iteration order. When the client is not ready every
identifier receives the fail-open entry; when the pipeline exec throws, the
catch block only logs (the error handling there is an unfinished stub), so
the map is returned exactly as it was before the forEach ran: empty. -/
def bulkRateLimit (ready : Bool) (outcome : BulkExec) (store : List (String × ZSet))
    (identifiers : List String) (now windowMs maxRequests : Int)
    (keyPre : String) (marks : Nat → String) :
    List (String × RateLimitResult) × List (String × ZSet) :=
  if !ready then
    (identifiers.foldl
      (fun m id => setKV m id (fallbackResult now windowMs maxRequests)) [],
     store)
  else
    match outcome with
    | BulkExec.execThrow => ([], store)
    | BulkExec.ok =>
        let keys := identifiers.map (fun id => keyPre ++ id)
        let piped := bulkPipeline store keys 0 now (now - windowMs) windowMs marks
        let resultMap := (identifiers.zip piped.2).foldl
          (fun m p =>
            let requestsInWindow : Int := (p.2 : Int) + 1
            setKV m p.1
              { allowed := decide (requestsInWindow ≤ maxRequests)
                remaining := max 0 (maxRequests - requestsInWindow)
                reset := now + windowMs
                total := maxRequests
                windowMs := windowMs })
          []
        (resultMap, piped.1)

/-- Claim C5, evaluated at the failing input: with the client ready and the
bulk pipeline exec throwing, bulkRateLimit for the batch consisting of the
identifier a returns a map with no entry at all for a, instead of the
allow-all fallback entry the claim (and the method documentation) promise
for the whole batch. -/
theorem C5_bulkRateLimit_execThrow_empty :
    lookupKV (bulkRateLimit true BulkExec.execThrow [] ["a"] 1000 60000 5
        "rate-limit:" (fun _ => "m")).1 "a" = none
    ∧ (bulkRateLimit false BulkExec.ok [] ["a"] 1000 60000 5
        "rate-limit:" (fun _ => "m")).1
      = [("a", fallbackResult 1000 60000 5)] := by
  constructor
  · rfl
  · rfl

/-! ### End-to-end rate-limit scenario (claim C6) -/

/-- The six calls of the scenario: identifier ip:10.0.0.1, windowMs 60000,
maxRequests 5, five calls inside the first ten seconds and a sixth call at
the ten-second mark, each with a fresh marker. -/
def c6Calls : List (Int × String) :=
  [(0, "m1"), (2000, "m2"), (4000, "m3"), (6000, "m4"), (8000, "m5"), (10000, "m6")]

def c6Results : List RateLimitResult :=
  (runRateLimitCalls [] c6Calls 60000 5).1

def c6Sixth : RateLimitResult :=
  c6Results.getD 5 (fallbackResult 0 0 0)

/-- Claim C6, refuted at its own concrete input: calls one to five are
allowed and call six is rejected with remaining = 0, but the retryAfter the
guard derives from resetAt - now is not approximately 50 seconds (read
generously as lying in [45, 55]), because reset is always now + windowMs. -/
theorem C6_retryAfter_counterexample :
    ¬ ((c6Results.take 5).all (fun r => r.allowed) = true
       ∧ c6Sixth.allowed = false
       ∧ c6Sixth.remaining = 0
       ∧ 45 ≤ retryAfterSeconds c6Sixth 10000
       ∧ retryAfterSeconds c6Sixth 10000 ≤ 55) := by
  decide

/-- Claim C6 as amended: calls one to five within the first ten seconds are
all allowed; call six in the same window is rejected with remaining = 0 and
a retryAfter of 60 seconds, that is windowMs / 1000: the code computes
resetAt as now + windowMs at the time of the rejected call, not as the
expiry of the oldest marker, so retryAfter never shrinks as the window
elapses. -/
theorem C6_scenario_amended :
    (c6Results.take 5).all (fun r => r.allowed) = true
    ∧ c6Sixth.allowed = false
    ∧ c6Sixth.remaining = 0
    ∧ c6Sixth.reset = 70000
    ∧ retryAfterSeconds c6Sixth 10000 = 60 := by
  decide

/-! ### Keyed store entries and the basic RedisService operations -/

/-- One stored string with its optional expiry in seconds. Clock-driven
eviction is not modelled: no verified claim involves the passage of TTL
time, entries only disappear through DEL. -/
structure Entry where
  value : String
  expiry : Option Int
  deriving DecidableEq

abbrev Store := List (String × Entry)

/-- JavaScript truthiness of the optional ttlSeconds argument: undefined
and 0 are falsy, every other integer is truthy. -/
def ttlTruthy : Option Int → Bool
  | none => false
  | some t => t != 0

/-- JavaScript truthiness of a nullable string: null and the empty string
are falsy. -/
def strTruthy : Option String → Bool
  | none => false
  | some s => s != ""

/-- Model of RedisService.get: null when the client is not ready, the
stored string otherwise. -/
def rget (ready : Bool) (st : Store) (key : String) : Option String :=
  if ready then (lookupKV st key).map Entry.value else none

/-- Model of RedisService.set: a no-op when the client is not ready; SETEX
when ttlSeconds is truthy (so a 0 ttl falls through to the plain SET and
stores permanently); plain SET with no expiry otherwise. Error replies of
the underlying client are swallowed by the method and not modelled. -/
def rset (ready : Bool) (st : Store) (key value : String)
    (ttlSeconds : Option Int) : Store :=
  if ready then
    if ttlTruthy ttlSeconds then setKV st key { value := value, expiry := ttlSeconds }
    else setKV st key { value := value, expiry := none }
  else st

theorem rset_lookup_self (st : Store) (key value : String) (ttlSeconds : Option Int) :
    lookupKV (rset true st key value ttlSeconds) key
      = some { value := value
               expiry := if ttlTruthy ttlSeconds then ttlSeconds else none } := by
  unfold rset
  by_cases h : ttlTruthy ttlSeconds
  · simp [h, lookupKV_setKV_self]
  · simp [h, lookupKV_setKV_self]

theorem key_ne_lock (key : String) : key ≠ key ++ ":lock" := by
  intro h
  have h2 := congrArg String.length h
  rw [String.length_append] at h2
  have h5 : (":lock" : String).length = 5 := rfl
  omega

/-! ### Stampede-safe cache (redis.service.ts, cache) -/

/-- Result of one cache call. starved is the fuel-exhaustion marker of the
model: it corresponds to the unbounded lock-wait recursion of the source
and is never reached in the verified scenarios. -/
inductive CacheResult (ε α : Type) where
  | ok (v : α)
  | thrown (e : ε)
  | starved
  deriving DecidableEq

/-- Model of RedisService.cache for a single sequential caller. enc is
JSON.stringify, dec is JSON.parse, fetchFn is the already-determined
outcome of the origin fetch, and the returned Nat counts how many times
fetchFn ran. The recursion of the source (retry after a 200 ms sleep while
another holder keeps the lock) is bounded here by fuel. -/
def cache {ε α : Type} (enc : α → String) (dec : String → α) (fuel : Nat)
    (ready : Bool) (st : Store) (key : String) (fetchFn : Except ε α)
    (ttlSeconds : Int) : CacheResult ε α × Store × Nat :=
  match fuel with
  | 0 => (CacheResult.starved, st, 0)
  | Nat.succ fuel' =>
      if ready then
        let cached := rget true st key
        if strTruthy cached then (CacheResult.ok (dec (cached.getD "")), st, 0)
        else
          match lookupKV st (key ++ ":lock") with
          | some _ => cache enc dec fuel' ready st key fetchFn ttlSeconds
          | none =>
              let st1 := setKV st (key ++ ":lock") { value := "locked", expiry := some 10 }
              match fetchFn with
              | Except.ok data =>
                  let st2 := rset true st1 key (enc data) (some ttlSeconds)
                  (CacheResult.ok data, delKV st2 (key ++ ":lock"), 1)
              | Except.error e => (CacheResult.thrown e, delKV st1 (key ++ ":lock"), 1)
      else
        match fetchFn with
        | Except.ok data => (CacheResult.ok data, st, 1)
        | Except.error e => (CacheResult.thrown e, st, 1)

theorem cache_miss_ok_eq {ε α : Type} (enc : α → String) (dec : String → α)
    (fuel : Nat) (st : Store) (key : String) (v : α) (ttlSeconds : Int)
    (hkey : lookupKV st key = none) (hlock : lookupKV st (key ++ ":lock") = none) :
    cache (ε := ε) enc dec (fuel + 1) true st key (Except.ok v) ttlSeconds
      = (CacheResult.ok v,
         delKV (rset true (setKV st (key ++ ":lock") { value := "locked", expiry := some 10 })
             key (enc v) (some ttlSeconds)) (key ++ ":lock"),
         1) := by
  simp [cache, rget, hkey, strTruthy, hlock]

theorem cache_miss_error_eq {ε α : Type} (enc : α → String) (dec : String → α)
    (fuel : Nat) (st : Store) (key : String) (e : ε) (ttlSeconds : Int)
    (hkey : lookupKV st key = none) (hlock : lookupKV st (key ++ ":lock") = none) :
    cache (α := α) enc dec (fuel + 1) true st key (Except.error e) ttlSeconds
      = (CacheResult.thrown e,
         delKV (setKV st (key ++ ":lock") { value := "locked", expiry := some 10 })
           (key ++ ":lock"),
         1) := by
  simp [cache, rget, hkey, strTruthy, hlock]

/-- Claim C8: a cache call that acquires the lock (the key misses and the
lock key is free) releases the lock on every exit path. When the origin
fetch succeeds, the serialized result is stored under the key, the value is
returned, and the lock key is gone; when the origin fetch throws, the
failure is returned to the caller, nothing is stored under the key, and the
lock key is still gone. -/
theorem C8_cache_lock_release {ε α : Type} (enc : α → String) (dec : String → α)
    (fuel : Nat) (st : Store) (key : String) (v : α) (e : ε) (ttlSeconds : Int)
    (hkey : lookupKV st key = none) (hlock : lookupKV st (key ++ ":lock") = none) :
    (cache (ε := ε) enc dec (fuel + 1) true st key (Except.ok v) ttlSeconds).1
      = CacheResult.ok v
    ∧ lookupKV (cache (ε := ε) enc dec (fuel + 1) true st key
        (Except.ok v) ttlSeconds).2.1 key
      = some { value := enc v
               expiry := if ttlTruthy (some ttlSeconds) then some ttlSeconds else none }
    ∧ lookupKV (cache (ε := ε) enc dec (fuel + 1) true st key
        (Except.ok v) ttlSeconds).2.1 (key ++ ":lock") = none
    ∧ (cache enc dec (fuel + 1) true st key (Except.error e) ttlSeconds).1
      = CacheResult.thrown e
    ∧ lookupKV (cache enc dec (fuel + 1) true st key (Except.error e) ttlSeconds).2.1 key
      = none
    ∧ lookupKV (cache enc dec (fuel + 1) true st key (Except.error e) ttlSeconds).2.1
        (key ++ ":lock") = none := by
  rw [cache_miss_ok_eq enc dec fuel st key v ttlSeconds hkey hlock,
    cache_miss_error_eq enc dec fuel st key e ttlSeconds hkey hlock]
  refine ⟨rfl, ?_, ?_, rfl, ?_, ?_⟩
  · rw [lookupKV_delKV_ne _ _ _ (key_ne_lock key), rset_lookup_self]
  · exact lookupKV_delKV_self _ _
  · rw [lookupKV_delKV_ne _ _ _ (key_ne_lock key),
      lookupKV_setKV_ne _ _ _ _ (key_ne_lock key)]
    exact hkey
  · exact lookupKV_delKV_self _ _

theorem C8_cache_lock_release_witness :
    (lookupKV ([] : Store) "k" = none ∧ lookupKV ([] : Store) ("k" ++ ":lock") = none)
    ∧ ((cache (fun s => s) (fun s => s) 1 true [] "k"
          (Except.ok (ε := Unit) "a") 300).1 = CacheResult.ok "a"
       ∧ lookupKV (cache (fun s => s) (fun s => s) 1 true [] "k"
            (Except.ok (ε := Unit) "a") 300).2.1 "k"
        = some { value := "a", expiry := if ttlTruthy (some 300) then some 300 else none }
       ∧ lookupKV (cache (fun s => s) (fun s => s) 1 true [] "k"
            (Except.ok (ε := Unit) "a") 300).2.1 ("k" ++ ":lock") = none
       ∧ (cache (fun s => s) (fun s => s) 1 true [] "k"
            (Except.error (α := String) ())  300).1 = CacheResult.thrown ()
       ∧ lookupKV (cache (fun s => s) (fun s => s) 1 true [] "k"
            (Except.error (α := String) ()) 300).2.1 "k" = none
       ∧ lookupKV (cache (fun s => s) (fun s => s) 1 true [] "k"
            (Except.error (α := String) ()) 300).2.1 ("k" ++ ":lock") = none) :=
  ⟨⟨rfl, rfl⟩,
   C8_cache_lock_release (fun s => s) (fun s => s) 0 [] "k" "a" () 300 rfl rfl⟩

/-- Claim C7: with the store available, caching a missing key and then
immediately caching the same key again with a second fetch function returns
the first fetched value from both calls, and the second call never invokes
its fetch function (its fetch counter is zero). The hypotheses state that
the key and its lock are initially absent, that deserialization inverts
serialization at the first value, and that the serialized first value is
not the empty string (the cache-hit test uses JavaScript truthiness). -/
theorem C7_cache_hit_no_refetch {ε α : Type} (enc : α → String) (dec : String → α)
    (f1 f2 : Nat) (st : Store) (key : String) (v1 v2 : α) (ttlSeconds : Int)
    (hkey : lookupKV st key = none) (hlock : lookupKV st (key ++ ":lock") = none)
    (hround : dec (enc v1) = v1) (hne : enc v1 ≠ "") :
    (cache (ε := ε) enc dec (f1 + 1) true st key (Except.ok v1) ttlSeconds).1
      = CacheResult.ok v1
    ∧ (cache (ε := ε) enc dec (f2 + 1) true
        (cache (ε := ε) enc dec (f1 + 1) true st key (Except.ok v1) ttlSeconds).2.1
        key (Except.ok v2) ttlSeconds).1 = CacheResult.ok v1
    ∧ (cache (ε := ε) enc dec (f2 + 1) true
        (cache (ε := ε) enc dec (f1 + 1) true st key (Except.ok v1) ttlSeconds).2.1
        key (Except.ok v2) ttlSeconds).2.2 = 0 := by
  rw [cache_miss_ok_eq enc dec f1 st key v1 ttlSeconds hkey hlock]
  have hlook : lookupKV
      (delKV (rset true (setKV st (key ++ ":lock") { value := "locked", expiry := some 10 })
        key (enc v1) (some ttlSeconds)) (key ++ ":lock")) key
      = some { value := enc v1
               expiry := if ttlTruthy (some ttlSeconds) then some ttlSeconds else none } := by
    rw [lookupKV_delKV_ne _ _ _ (key_ne_lock key), rset_lookup_self]
  refine ⟨rfl, ?_, ?_⟩
  · simp [cache, rget, hlook, strTruthy, hne, hround]
  · simp [cache, rget, hlook, strTruthy, hne]

theorem C7_cache_hit_no_refetch_witness :
    (lookupKV ([] : Store) "k" = none ∧ lookupKV ([] : Store) ("k" ++ ":lock") = none
     ∧ (fun (s : String) => s) ((fun (s : String) => s) "a") = "a"
     ∧ (fun (s : String) => s) "a" ≠ "")
    ∧ ((cache (ε := Unit) (fun s => s) (fun s => s) 1 true [] "k"
         (Except.ok "a") 300).1 = CacheResult.ok "a"
       ∧ (cache (ε := Unit) (fun s => s) (fun s => s) 1 true
           (cache (ε := Unit) (fun s => s) (fun s => s) 1 true [] "k"
             (Except.ok "a") 300).2.1
           "k" (Except.ok "b") 300).1 = CacheResult.ok "a"
       ∧ (cache (ε := Unit) (fun s => s) (fun s => s) 1 true
           (cache (ε := Unit) (fun s => s) (fun s => s) 1 true [] "k"
             (Except.ok "a") 300).2.1
           "k" (Except.ok "b") 300).2.2 = 0) :=
  ⟨⟨rfl, rfl, rfl, by decide⟩,
   C7_cache_hit_no_refetch (fun s => s) (fun s => s) 0 0 [] "k" "a" "b" 300
     rfl rfl rfl (by decide)⟩

/-- Claim C10: RedisService.set with a ttlSeconds of 0 stores the value
with no expiry, because the if (ttlSeconds) branch treats 0 like an omitted
ttl and falls through to the plain SET; for every positive ttlSeconds the
value is stored together with that expiry via SETEX; and consequently a
cache call with ttlSeconds 0 that populates a missing key creates a
permanent entry. -/
theorem C10_set_zero_ttl_permanent {ε α : Type} (enc : α → String) (dec : String → α)
    (st st2 : Store) (key value key2 : String) (t : Int) (fuel : Nat) (v : α)
    (ht : 0 < t)
    (hkey2 : lookupKV st2 key2 = none)
    (hlock2 : lookupKV st2 (key2 ++ ":lock") = none) :
    lookupKV (rset true st key value (some 0)) key = some { value := value, expiry := none }
    ∧ lookupKV (rset true st key value (some t)) key
      = some { value := value, expiry := some t }
    ∧ lookupKV (rset true st key value none) key = some { value := value, expiry := none }
    ∧ lookupKV (cache (ε := ε) enc dec (fuel + 1) true st2 key2
        (Except.ok v) 0).2.1 key2 = some { value := enc v, expiry := none } := by
  have hne : t ≠ 0 := by omega
  refine ⟨?_, ?_, ?_, ?_⟩
  · rw [rset_lookup_self]
    simp [ttlTruthy]
  · rw [rset_lookup_self]
    simp [ttlTruthy, hne]
  · rw [rset_lookup_self]
    simp [ttlTruthy]
  · rw [cache_miss_ok_eq enc dec fuel st2 key2 v 0 hkey2 hlock2]
    rw [lookupKV_delKV_ne _ _ _ (key_ne_lock key2), rset_lookup_self]
    simp [ttlTruthy]

theorem C10_set_zero_ttl_permanent_witness :
    ((0 : Int) < 7
     ∧ lookupKV ([] : Store) "k" = none
     ∧ lookupKV ([] : Store) ("k" ++ ":lock") = none)
    ∧ (lookupKV (rset true [] "p" "val" (some 0)) "p"
        = some { value := "val", expiry := none }
       ∧ lookupKV (rset true [] "p" "val" (some 7)) "p"
        = some { value := "val", expiry := some 7 }
       ∧ lookupKV (rset true [] "p" "val" none) "p"
        = some { value := "val", expiry := none }
       ∧ lookupKV (cache (ε := Unit) (fun (s : String) => s) (fun s => s) 1 true [] "k"
           (Except.ok "a") 0).2.1 "k" = some { value := "a", expiry := none }) :=
  ⟨⟨by decide, rfl, rfl⟩,
   C10_set_zero_ttl_permanent (fun s => s) (fun s => s) [] [] "p" "val" "k" 7 0 "a"
     (by decide) rfl rfl⟩

/-! ### Reconciliation consumer (product.consumer.ts) -/

/-- Payload of the product.created domain event as typed by
ProductCreatedDto. -/
structure ProductCreatedDto where
  id : String
  timestamp : String
  version : Int
  name : String
  description : Option String
  price : Int
  categoryId : String
  deriving DecidableEq

/-- Payload of the product.updated domain event as typed by
ProductUpdatedDto; oldCategoryId is the optional field driving the
category-move logic. -/
structure ProductUpdatedDto where
  id : String
  timestamp : String
  version : Int
  name : String
  description : Option String
  price : Int
  categoryId : String
  oldCategoryId : Option String
  deriving DecidableEq

/-- Payload of the product.deleted domain event as typed by
ProductDeletedDto. -/
structure ProductDeletedDto where
  id : String
  timestamp : String
  version : Int
  name : String
  price : Int
  categoryId : String
  deriving DecidableEq

/-- The JSON object handed to kafkaProducer.send for a counter adjustment.
Fields the handler does not put into the object literal are none. -/
structure CounterAdjustment where
  categoryId : String
  productId : String
  productName : Option String
  timestamp : Option String
  deriving DecidableEq

/-- One producer send: the topic name and the message object. -/
abbrev Emission := String × CounterAdjustment

/-- Model of handleProductCreated: one increment emission carrying the
category, the product id, the product name, and the event timestamp. The
gateway notification is not an emission and is not modelled. -/
def handleProductCreated (e : ProductCreatedDto) : List Emission :=
  [("category.product.count.increment",
    { categoryId := e.categoryId
      productId := e.id
      productName := some e.name
      timestamp := some e.timestamp })]

/-- Model of handleProductUpdated. The guard mirrors the JavaScript test
event.oldCategoryId && event.oldCategoryId !== event.categoryId: an absent
or empty oldCategoryId is falsy and suppresses both emissions. The
decrement for the old category is sent before the increment for the new
one, and neither message object carries a timestamp field. -/
def handleProductUpdated (e : ProductUpdatedDto) : List Emission :=
  match e.oldCategoryId with
  | some old =>
      if old != "" && old != e.categoryId then
        [("category.product.count.decrement",
          { categoryId := old
            productId := e.id
            productName := none
            timestamp := none }),
         ("category.product.count.increment",
          { categoryId := e.categoryId
            productId := e.id
            productName := some e.name
            timestamp := none })]
      else []
  | none => []

/-- Model of handleProductDeleted: one decrement emission carrying only the
category and the product id. -/
def handleProductDeleted (e : ProductDeletedDto) : List Emission :=
  [("category.product.count.decrement",
    { categoryId := e.categoryId
      productId := e.id
      productName := none
      timestamp := none })]

/-- Claim C4, refuted at a concrete event: for an updated event whose
oldCategoryId is present (some value) but equal to the empty string and
different from categoryId, the claim demands one decrement and one
increment, yet the handler emits nothing, because the JavaScript guard
tests truthiness of oldCategoryId and the empty string is falsy. -/
theorem C4_empty_oldCategory_counterexample :
    (ProductUpdatedDto.oldCategoryId
        { id := "p1", timestamp := "t", version := 1, name := "n",
          description := none, price := 5, categoryId := "c1",
          oldCategoryId := some "" }).isSome = true
    ∧ ProductUpdatedDto.oldCategoryId
        { id := "p1", timestamp := "t", version := 1, name := "n",
          description := none, price := 5, categoryId := "c1",
          oldCategoryId := some "" }
      ≠ some "c1"
    ∧ handleProductUpdated
        { id := "p1", timestamp := "t", version := 1, name := "n",
          description := none, price := 5, categoryId := "c1",
          oldCategoryId := some "" }
      = [] := by
  refine ⟨rfl, by decide, rfl⟩

/-- Claim C4 as amended: for every updated event whose oldCategoryId is
present, non-empty, and different from categoryId, the handler emits
exactly one decrement for the old category followed by exactly one
increment for the new category; when oldCategoryId is absent, empty, or
equal to categoryId, it emits nothing. -/
theorem C4_update_move_emissions (e : ProductUpdatedDto) :
    (∀ old, e.oldCategoryId = some old → old ≠ "" → old ≠ e.categoryId →
      handleProductUpdated e
        = [("category.product.count.decrement",
            { categoryId := old, productId := e.id,
              productName := none, timestamp := none }),
           ("category.product.count.increment",
            { categoryId := e.categoryId, productId := e.id,
              productName := some e.name, timestamp := none })])
    ∧ ((e.oldCategoryId = none ∨ e.oldCategoryId = some ""
        ∨ e.oldCategoryId = some e.categoryId) →
      handleProductUpdated e = []) := by
  constructor
  · intro old hsome hne hmove
    simp [handleProductUpdated, hsome, hne, hmove]
  · intro h
    rcases h with h | h | h
    · simp [handleProductUpdated, h]
    · simp [handleProductUpdated, h]
    · simp [handleProductUpdated, h]

theorem C4_update_move_emissions_witness :
    handleProductUpdated
        { id := "p1", timestamp := "t", version := 1, name := "n",
          description := none, price := 5, categoryId := "B",
          oldCategoryId := some "A" }
      = [("category.product.count.decrement",
          { categoryId := "A", productId := "p1",
            productName := none, timestamp := none }),
         ("category.product.count.increment",
          { categoryId := "B", productId := "p1",
            productName := some "n", timestamp := none })] :=
  (C4_update_move_emissions
      { id := "p1", timestamp := "t", version := 1, name := "n",
        description := none, price := 5, categoryId := "B",
        oldCategoryId := some "A" }).1
    "A" rfl (by decide) (by decide)

/-- Claim C9, refuted at a concrete event: the decrement the consumer emits
for a deleted product carries no timestamp field at all — the object
literal in handleProductDeleted only contains categoryId and productId —
so it is not true that every counter-adjustment emission carries a
timestamp. -/
theorem C9_deleted_no_timestamp_counterexample :
    ((handleProductDeleted
        { id := "p9", timestamp := "2024-01-01", version := 1, name := "n",
          price := 5, categoryId := "c9" }).all
      (fun em => em.2.timestamp.isSome)) = false := by
  rfl

/-- Claim C9 as amended: every emission carries categoryId and productId,
but only the created-path increment carries a timestamp (copied from the
domain event); the two emissions of an updated move carry no timestamp
(the increment of the pair still carries the product name, the decrement
does not), and the deleted-path decrement carries neither product name nor
timestamp. -/
theorem C9_adjustment_payload_fields (eC : ProductCreatedDto)
    (eU : ProductUpdatedDto) (eD : ProductDeletedDto) :
    handleProductCreated eC
      = [("category.product.count.increment",
          { categoryId := eC.categoryId, productId := eC.id,
            productName := some eC.name, timestamp := some eC.timestamp })]
    ∧ ((handleProductUpdated eU).all (fun em => em.2.timestamp.isNone)) = true
    ∧ handleProductDeleted eD
      = [("category.product.count.decrement",
          { categoryId := eD.categoryId, productId := eD.id,
            productName := none, timestamp := none })] := by
  refine ⟨rfl, ?_, rfl⟩
  unfold handleProductUpdated
  cases eU.oldCategoryId with
  | none => rfl
  | some old =>
      split <;> first
      | rfl
      | (split <;> rfl)

/-! ### Interleaved execution of cache (claim C3)

Each caller of cache is a small state machine whose transitions are the
await points of the source method: the cache read, the NX lock write, the
backoff sleep, the origin fetch, the cache write, and the lock delete. A
schedule is the list of caller indices in the order the event loop resumes
them. The store stays available throughout and the shared origin fetch is
deterministic, returning fetchVal, so this is exactly the normal-availability
regime of the claim. -/

/-- Program counter of one caller between await points. -/
inductive CallerPC (α : Type) where
  | start
  | tryLock
  | waiting
  | fetching
  | writing
  | releasing
  | finished (r : α)
  deriving DecidableEq

/-- Global configuration: the shared store, every caller position, and the
number of origin-fetch executions so far. -/
structure CacheRace (α : Type) where
  store : Store
  callers : List (CallerPC α)
  fetches : Nat
  deriving DecidableEq

/-- One caller transition of cache: returns the new program counter, the
new store, and 1 when the transition executed the origin fetch. -/
def callerStep {α : Type} (enc : α → String) (dec : String → α) (key : String)
    (fetchVal : α) (ttlSeconds : Int) (st : Store) :
    CallerPC α → CallerPC α × Store × Nat
  | CallerPC.start =>
      match rget true st key with
      | some s =>
          if s != "" then (CallerPC.finished (dec s), st, 0) else (CallerPC.tryLock, st, 0)
      | none => (CallerPC.tryLock, st, 0)
  | CallerPC.tryLock =>
      match lookupKV st (key ++ ":lock") with
      | some _ => (CallerPC.waiting, st, 0)
      | none =>
          (CallerPC.fetching,
           setKV st (key ++ ":lock") { value := "locked", expiry := some 10 }, 0)
  | CallerPC.waiting => (CallerPC.start, st, 0)
  | CallerPC.fetching => (CallerPC.writing, st, 1)
  | CallerPC.writing =>
      (CallerPC.releasing, rset true st key (enc fetchVal) (some ttlSeconds), 0)
  | CallerPC.releasing => (CallerPC.finished fetchVal, delKV st (key ++ ":lock"), 0)
  | CallerPC.finished r => (CallerPC.finished r, st, 0)

/-- Resume caller i for one transition; an out-of-range index is a no-op. -/
def stepAt {α : Type} (enc : α → String) (dec : String → α) (key : String)
    (fetchVal : α) (ttlSeconds : Int) (cfg : CacheRace α) (i : Nat) : CacheRace α :=
  match cfg.callers[i]? with
  | none => cfg
  | some pc =>
      { store := (callerStep enc dec key fetchVal ttlSeconds cfg.store pc).2.1
        callers := cfg.callers.set i (callerStep enc dec key fetchVal ttlSeconds cfg.store pc).1
        fetches := cfg.fetches + (callerStep enc dec key fetchVal ttlSeconds cfg.store pc).2.2 }

/-- Run a whole schedule of caller resumptions. -/
def runSchedule {α : Type} (enc : α → String) (dec : String → α) (key : String)
    (fetchVal : α) (ttlSeconds : Int) (cfg : CacheRace α) (sched : List Nat) :
    CacheRace α :=
  sched.foldl (stepAt enc dec key fetchVal ttlSeconds) cfg

/-- Claim C3, refuted by an explicit interleaving of two callers on the
same missing key with the store available throughout: caller 1 reads the
cache (miss), then caller 0 runs the whole protocol (miss, acquire, fetch,
write, release), and only then does caller 1 attempt the lock — which
succeeds, because the miss re-check and the lock acquisition are not one
atomic step — so caller 1 executes the origin fetch a second time. The
fetch counter ends at 2, refuting that fetchFn executes at most once for
this cache-miss episode. -/
theorem C3_double_fetch_counterexample :
    ¬ ((runSchedule (fun (s : String) => s) (fun s => s) "k" "val" 300
          { store := [], callers := [CallerPC.start, CallerPC.start], fetches := 0 }
          [1, 0, 0, 0, 0, 0, 1, 1]).fetches ≤ 1)
    ∧ (runSchedule (fun (s : String) => s) (fun s => s) "k" "val" 300
        { store := [], callers := [CallerPC.start, CallerPC.start], fetches := 0 }
        [1, 0, 0, 0, 0, 0, 1, 1]).fetches = 2 := by
  constructor
  · decide
  · rfl

/-- True for the program counters at or after the origin fetch has run; a
caller can reach this region at most once, since finished is absorbing and
the retry loop only revisits the region before the fetch. -/
def postFetch {α : Type} : CallerPC α → Bool
  | CallerPC.writing => true
  | CallerPC.releasing => true
  | CallerPC.finished _ => true
  | _ => false

theorem countP_set_eq {γ : Type} (p : γ → Bool) :
    ∀ (l : List γ) (i : Nat) (a b : γ), l[i]? = some b →
      (l.set i a).countP p + (if p b then 1 else 0)
        = l.countP p + (if p a then 1 else 0)
  | [], i, a, b, h => by simp at h
  | x :: xs, 0, a, b, h => by
      simp only [List.getElem?_cons_zero, Option.some.injEq] at h
      subst h
      simp [List.countP_cons]
      omega
  | x :: xs, i + 1, a, b, h => by
      simp only [List.getElem?_cons_succ] at h
      have ih := countP_set_eq p xs i a b h
      simp only [List.set, List.countP_cons]
      omega

theorem mem_of_mem_set {γ : Type} :
    ∀ (l : List γ) (i : Nat) (a x : γ), x ∈ l.set i a → x = a ∨ x ∈ l
  | [], i, a, x, h => by simp [List.set] at h
  | y :: ys, 0, a, x, h => by
      simp only [List.set, List.mem_cons] at h
      rcases h with h | h
      · exact Or.inl h
      · exact Or.inr (List.mem_cons_of_mem _ h)
  | y :: ys, i + 1, a, x, h => by
      simp only [List.set, List.mem_cons] at h
      rcases h with h | h
      · exact Or.inr (by simp [h])
      · rcases mem_of_mem_set ys i a x h with h2 | h2
        · exact Or.inl h2
        · exact Or.inr (List.mem_cons_of_mem _ h2)

theorem mem_of_getElem_some {γ : Type} :
    ∀ (l : List γ) (i : Nat) (a : γ), l[i]? = some a → a ∈ l
  | [], i, a, h => by simp at h
  | x :: xs, 0, a, h => by
      simp only [List.getElem?_cons_zero, Option.some.injEq] at h
      simp [h]
  | x :: xs, i + 1, a, h => by
      simp only [List.getElem?_cons_succ] at h
      exact List.mem_cons_of_mem _ (mem_of_getElem_some xs i a h)

/-- Invariant of the interleaved cache protocol: the caller count is
stable, the fetch counter is bounded by the number of callers at or past
the fetch, the key only ever holds the serialized fetch value, and every
completed caller completed with the fetch value. -/
def RaceInv {α : Type} (enc : α → String) (key : String) (fetchVal : α) (n : Nat)
    (cfg : CacheRace α) : Prop :=
  cfg.callers.length = n
  ∧ cfg.fetches ≤ cfg.callers.countP postFetch
  ∧ (∀ en, lookupKV cfg.store key = some en → Entry.value en = enc fetchVal)
  ∧ (∀ q, CallerPC.finished q ∈ cfg.callers → q = fetchVal)

theorem callerStep_spec {α : Type} (enc : α → String) (dec : String → α)
    (key : String) (fetchVal : α) (ttlSeconds : Int) (st : Store) (pc : CallerPC α)
    (hround : dec (enc fetchVal) = fetchVal)
    (hstore : ∀ en, lookupKV st key = some en → Entry.value en = enc fetchVal) :
    ((if postFetch pc then 1 else 0)
        + (callerStep enc dec key fetchVal ttlSeconds st pc).2.2
      ≤ (if postFetch (callerStep enc dec key fetchVal ttlSeconds st pc).1 then 1 else 0))
    ∧ (∀ en, lookupKV (callerStep enc dec key fetchVal ttlSeconds st pc).2.1 key = some en →
        Entry.value en = enc fetchVal)
    ∧ (∀ q, (callerStep enc dec key fetchVal ttlSeconds st pc).1 = CallerPC.finished q →
        q = fetchVal ∨ pc = CallerPC.finished q) := by
  cases pc with
  | start =>
      cases hk : lookupKV st key with
      | none =>
          have hr0 : rget true st key = none := by simp [rget, hk]
          simp only [callerStep, hr0]
          exact ⟨by simp [postFetch], hstore, by intro q h; cases h⟩
      | some en =>
          have hr0 : rget true st key = some (Entry.value en) := by simp [rget, hk]
          have hval : Entry.value en = enc fetchVal := hstore en hk
          by_cases hne : (Entry.value en != "") = true
          · simp only [callerStep, hr0, hne, if_true]
            refine ⟨by simp [postFetch], hstore, ?_⟩
            intro q h
            injection h with h2
            exact Or.inl (by rw [← h2, hval, hround])
          · simp only [Bool.not_eq_true] at hne
            simp only [callerStep, hr0, hne, Bool.false_eq_true, if_false]
            exact ⟨by simp [postFetch], hstore, by intro q h; cases h⟩
  | tryLock =>
      cases hk : lookupKV st (key ++ ":lock") with
      | some en =>
          simp only [callerStep, hk]
          exact ⟨by simp [postFetch], hstore, by intro q h; cases h⟩
      | none =>
          simp only [callerStep, hk]
          refine ⟨by simp [postFetch], ?_, by intro q h; cases h⟩
          intro en hen
          rw [lookupKV_setKV_ne _ _ _ _ (key_ne_lock key)] at hen
          exact hstore en hen
  | waiting =>
      simp only [callerStep]
      exact ⟨by simp [postFetch], hstore, by intro q h; cases h⟩
  | fetching =>
      simp only [callerStep]
      exact ⟨by simp [postFetch], hstore, by intro q h; cases h⟩
  | writing =>
      simp only [callerStep]
      refine ⟨by simp [postFetch], ?_, by intro q h; cases h⟩
      intro en hen
      rw [rset_lookup_self] at hen
      cases hen
      rfl
  | releasing =>
      simp only [callerStep]
      refine ⟨by simp [postFetch], ?_, ?_⟩
      · intro en hen
        rw [lookupKV_delKV_ne _ _ _ (key_ne_lock key)] at hen
        exact hstore en hen
      · intro q h
        cases h
        exact Or.inl rfl
  | finished r =>
      simp only [callerStep]
      refine ⟨by simp [postFetch], hstore, ?_⟩
      intro q h
      cases h
      exact Or.inr rfl

theorem raceInv_stepAt {α : Type} (enc : α → String) (dec : String → α)
    (key : String) (fetchVal : α) (ttlSeconds : Int) (n : Nat)
    (hround : dec (enc fetchVal) = fetchVal) (cfg : CacheRace α) (i : Nat)
    (h : RaceInv enc key fetchVal n cfg) :
    RaceInv enc key fetchVal n (stepAt enc dec key fetchVal ttlSeconds cfg i) := by
  obtain ⟨hlen, hcnt, hstore, hres⟩ := h
  unfold stepAt
  cases hcall : cfg.callers[i]? with
  | none => exact ⟨hlen, hcnt, hstore, hres⟩
  | some pc =>
      obtain ⟨h1, h2, h3⟩ :=
        callerStep_spec enc dec key fetchVal ttlSeconds cfg.store pc hround hstore
      have hceq := countP_set_eq postFetch cfg.callers i
        (callerStep enc dec key fetchVal ttlSeconds cfg.store pc).1 pc hcall
      show RaceInv enc key fetchVal n
        { store := (callerStep enc dec key fetchVal ttlSeconds cfg.store pc).2.1
          callers := cfg.callers.set i (callerStep enc dec key fetchVal ttlSeconds cfg.store pc).1
          fetches := cfg.fetches + (callerStep enc dec key fetchVal ttlSeconds cfg.store pc).2.2 }
      refine ⟨by simp [List.length_set, hlen], ?_, h2, ?_⟩
      · show cfg.fetches + (callerStep enc dec key fetchVal ttlSeconds cfg.store pc).2.2
          ≤ (cfg.callers.set i
              (callerStep enc dec key fetchVal ttlSeconds cfg.store pc).1).countP postFetch
        omega
      · intro q hq
        rcases mem_of_mem_set _ _ _ _ hq with heq | hmem
        · rcases h3 q heq.symm with hv | hpc
          · exact hv
          · exact hres q (hpc ▸ mem_of_getElem_some _ _ _ hcall)
        · exact hres q hmem

theorem raceInv_runSchedule {α : Type} (enc : α → String) (dec : String → α)
    (key : String) (fetchVal : α) (ttlSeconds : Int) (n : Nat)
    (hround : dec (enc fetchVal) = fetchVal) :
    ∀ (sched : List Nat) (cfg : CacheRace α), RaceInv enc key fetchVal n cfg →
      RaceInv enc key fetchVal n (runSchedule enc dec key fetchVal ttlSeconds cfg sched)
  | [], cfg, h => h
  | i :: rest, cfg, h =>
      raceInv_runSchedule enc dec key fetchVal ttlSeconds n hround rest
        (stepAt enc dec key fetchVal ttlSeconds cfg i)
        (raceInv_stepAt enc dec key fetchVal ttlSeconds n hround cfg i h)

/-- Claim C3 as amended: with the store available and a deterministic
origin fetch, any interleaving of any number n of concurrent callers of
cache on the same missing key executes the origin fetch at most once per
caller — so at most n times, not at most once: the counterexample
interleaving reaches two fetches, because the miss re-check and the lock
acquisition are separate await points — and every caller that completes
receives the same resulting value, namely the fetch value. -/
theorem C3_fetch_bound_amended {α : Type} (enc : α → String) (dec : String → α)
    (key : String) (fetchVal : α) (ttlSeconds : Int) (n : Nat) (st0 : Store)
    (sched : List Nat)
    (hround : dec (enc fetchVal) = fetchVal)
    (hkey : lookupKV st0 key = none) :
    (runSchedule enc dec key fetchVal ttlSeconds
        { store := st0, callers := List.replicate n CallerPC.start, fetches := 0 }
        sched).fetches ≤ n
    ∧ ∀ q, CallerPC.finished q ∈ (runSchedule enc dec key fetchVal ttlSeconds
        { store := st0, callers := List.replicate n CallerPC.start, fetches := 0 }
        sched).callers → q = fetchVal := by
  have hinv0 : RaceInv enc key fetchVal n
      { store := st0, callers := List.replicate n CallerPC.start, fetches := 0 } := by
    refine ⟨List.length_replicate n _, Nat.zero_le _, ?_, ?_⟩
    · intro en hen
      rw [hkey] at hen
      cases hen
    · intro q hq
      exact absurd (List.eq_of_mem_replicate hq) (by intro h; cases h)
  obtain ⟨hlen, hcnt, _, hres⟩ :=
    raceInv_runSchedule enc dec key fetchVal ttlSeconds n hround sched _ hinv0
  refine ⟨?_, hres⟩
  calc (runSchedule enc dec key fetchVal ttlSeconds
      { store := st0, callers := List.replicate n CallerPC.start, fetches := 0 }
      sched).fetches
      ≤ (runSchedule enc dec key fetchVal ttlSeconds
      { store := st0, callers := List.replicate n CallerPC.start, fetches := 0 }
      sched).callers.countP postFetch := hcnt
    _ ≤ (runSchedule enc dec key fetchVal ttlSeconds
      { store := st0, callers := List.replicate n CallerPC.start, fetches := 0 }
      sched).callers.length := List.countP_le_length _
    _ = n := hlen

theorem C3_fetch_bound_amended_witness :
    ((fun (s : String) => s) ((fun (s : String) => s) "val") = "val"
     ∧ lookupKV ([] : Store) "k" = none)
    ∧ (runSchedule (fun (s : String) => s) (fun s => s) "k" "val" 300
        { store := [], callers := List.replicate 2 CallerPC.start, fetches := 0 }
        [1, 0, 0, 0, 0, 0, 1, 1]).fetches ≤ 2 :=
  ⟨⟨rfl, rfl⟩,
   (C3_fetch_bound_amended (fun s => s) (fun s => s) "k" "val" 300 2 []
      [1, 0, 0, 0, 0, 0, 1, 1] rfl rfl).1⟩

end ProductService
